import Mathlib

/-!
Verification of the validator-tracker pipeline: a shallow embedding, in Lean 4,
of the log-fetching, event-decoding, classification and aggregation logic of the
repository, with theorems settling the specification's claims about it.

Conventions of the embedding:
  - JavaScript BigInt values are `Nat` (all values handled here are non-negative);
  - machine-level JS `Number` values produced by exact decimal-string pipelines
    are idealized as exact rationals (`ℚ`); where that idealization matters it is
    stated in the relevant doc comment;
  - block numbers are `Int` (JS arithmetic on them can go negative);
  - a thrown-and-caught JS exception is `Option.none`;
  - JS strings are `String` / `List Char`, or lists of UTF-16 code units
    (`List Nat`) where case mapping must be reasoned about.
-/

/-! ## Fixed-point formatting: EthereumDelegationTracker.formatUnits -/

/-- Decimal digits of `n`, most significant first, left-padded with zeros to
width `w`: the embedding of `fraction.toString().padStart(decimals, '0')`. -/
def padDigits (w n : Nat) : List Nat :=
  let ds := Nat.digits 10 n
  (ds ++ List.replicate (w - ds.length) 0).reverse

/-- Trailing zeros trimmed from a most-significant-first digit list: the
embedding of `fracStr.replace(/0+$/, '')`. -/
def trimTrailingZeros (l : List Nat) : List Nat :=
  ((l.reverse).dropWhile (fun d => d = 0)).reverse

/-- Embedding of `EthereumDelegationTracker.formatUnits(value, 18)` for
non-negative `value` (the claim's scope; the source's `negative` branch is the
sign prepended to the same digits). The returned pair is the decimal string the
source builds: the integer part `value / 10n**18n`, and the digits of the
fractional part `value % 10n**18n` left-padded to 18 digits and then trimmed of
trailing zeros; an all-zero fractional part trims to `[]`, in which case the
source omits the decimal point entirely. All arithmetic is on `Nat`
(arbitrary-precision, as BigInt in the source): no floating point anywhere. -/
def formatUnits (v : Nat) : Nat × List Nat :=
  let base := 10 ^ 18
  let integer := v / base
  let fraction := v % base
  (integer, trimTrailingZeros (padDigits 18 fraction))

/-- Parsing a formatted value back, as the claim states it: the integer part
times `10^18` plus the fractional digits right-padded with zeros to 18 digits. -/
def parseUnits (p : Nat × List Nat) : Nat :=
  p.1 * 10 ^ 18 + Nat.ofDigits 10 ((p.2 ++ List.replicate (18 - p.2.length) 0).reverse)

theorem ofDigits_replicate_zero (b n : Nat) : Nat.ofDigits b (List.replicate n 0) = 0 := by
  induction n with
  | zero => rfl
  | succ k ih => simp [List.replicate_succ, Nat.ofDigits_cons, ih]

theorem padDigits_length (w n : Nat) (h : n < 10 ^ w) : (padDigits w n).length = w := by
  have hlen : (Nat.digits 10 n).length ≤ w := by
    rcases Nat.eq_zero_or_pos n with hn | hn
    · simp [hn]
    · rw [Nat.digits_len 10 n (by norm_num) hn.ne']
      have := Nat.log_lt_of_lt_pow hn.ne' h
      omega
  simp [padDigits]
  omega

theorem ofDigits_reverse_padDigits (w n : Nat) :
    Nat.ofDigits 10 (padDigits w n).reverse = n := by
  simp [padDigits, Nat.ofDigits_append, ofDigits_replicate_zero, Nat.ofDigits_digits]

theorem dropWhile_reverse_append_replicate (m : List Nat) :
    (m.dropWhile (fun d => d = 0)).reverse ++
      List.replicate (m.takeWhile (fun d => d = 0)).length 0 = m.reverse := by
  induction m with
  | nil => simp
  | cons a as ih =>
    by_cases h : a = 0
    · subst h
      simp [List.dropWhile_cons, List.takeWhile_cons, List.replicate_succ',
        ← List.append_assoc, ih]
    · simp [List.dropWhile_cons, List.takeWhile_cons, h]

/-- Appending back the zeros that trimming removed restores the original digit
list. -/
theorem trimTrailingZeros_append (l : List Nat) :
    trimTrailingZeros l ++
      List.replicate (l.length - (trimTrailingZeros l).length) 0 = l := by
  have hkey := dropWhile_reverse_append_replicate l.reverse
  rw [List.reverse_reverse] at hkey
  have hlen : l.length = (trimTrailingZeros l).length +
      (l.reverse.takeWhile (fun d => d = 0)).length := by
    have := congrArg List.length hkey
    simp only [List.length_append, List.length_reverse, List.length_replicate] at this
    simp only [trimTrailingZeros, List.length_reverse]
    omega
  rw [hlen]
  simpa [trimTrailingZeros] using hkey

/-- C2: for every non-negative integer `v`, `formatUnits(v, 18)` produces a
decimal representation (integer part, and fractional digits with trailing zeros
trimmed, omitted entirely when all-zero) such that parsing it back as
`integerPart * 10^18 + fractionalPart` (right-padded to 18 digits) reconstructs
`v` exactly; the computation is Nat (BigInt) arithmetic throughout, with no
floating point, so this holds for all magnitudes including values beyond 2^53. -/
theorem formatUnits_roundTrip (v : Nat) : parseUnits (formatUnits v) = v := by
  have hfrac : v % 10 ^ 18 < 10 ^ 18 := Nat.mod_lt _ (by norm_num)
  have hpadlen : (padDigits 18 (v % 10 ^ 18)).length = 18 :=
    padDigits_length 18 _ hfrac
  unfold parseUnits formatUnits
  simp only
  have htrim := trimTrailingZeros_append (padDigits 18 (v % 10 ^ 18))
  rw [hpadlen] at htrim
  rw [htrim, ofDigits_reverse_padDigits]
  omega

/-! ## Address classification: DelegatorFilter -/

/-- JS `toLowerCase()` on one UTF-16 code unit, restricted to the ASCII range
(address strings are ASCII hex, so the Unicode-only cases never arise). -/
def jsLowerCode (c : Nat) : Nat := if 65 ≤ c ∧ c ≤ 90 then c + 32 else c

/-- JS `toUpperCase()` on one UTF-16 code unit, ASCII range. -/
def jsUpperCode (c : Nat) : Nat := if 97 ≤ c ∧ c ≤ 122 then c - 32 else c

/-- A JS string as its list of UTF-16 code units; `jsToLower`/`jsToUpper` are
`String.prototype.toLowerCase`/`toUpperCase` at that representation. -/
def strUnits (s : String) : List Nat := s.data.map Char.toNat

def jsToLower (s : List Nat) : List Nat := s.map jsLowerCode

def jsToUpper (s : List Nat) : List Nat := s.map jsUpperCode

/-- The static exchange-address set of `DelegatorFilter` (`knownExchangeAddresses`),
verbatim from the constructor; JS `Set` membership is `List.contains` here
(duplicates in the literal do not change membership). -/
def knownExchangeAddresses : List (List Nat) :=
  [ "0x5e3346444010135322268a0ca24b70e5b1d0d52a",
    "0x6cc5f688a315f3dc28a7781717a9a798a59fda7b",
    "0x46340b20830761efd32832a74d7169b29feb9758",
    "0x28c6c06298d514db089934071355e5743bf21d60",
    "0x21a31ee1afc51d94c2efccaa2092ad1028285549",
    "0xdfd5293d8e347dfe59e90efd55b2956a1343963d",
    "0x56eddb7aa87536c09ccc2793473599fd21a8b17f",
    "0x9696f59e4d72e237be84ffd425dcad154bf96976",
    "0x4e9ce36e442e55ecd9025b9a6e0d88485d628a67",
    "0xbe0eb53f46cd790cd13851d5eff43d12404d33e8",
    "0xf977814e90da44bfa03b6295a0616a897441acec",
    "0x001866ae5b3de6caa5a51543fd9fb64f524f5478",
    "0x85b931a32a0725be14285b66f1a22178c672d69b",
    "0x708396f17127c42383e3b9014072679b2f60b82f",
    "0xe0f0cfde7ee664943906f17f7f14342e76a5cec7",
    "0x8f22f2063d253846b53609231ed80fa571bc0c8f",
    "0x28c6c06298d514db089934071355e5743bf21d60",
    "0x3f5ce5fbfe3e9af3971dd833d26ba9b5c936f0be",
    "0xd551234ae421e3bcba99a0da6d736074f22192ff",
    "0x564286362092d8e7936f0549571a803b203aaced",
    "0x0681d8db095565fe8a346fa0277bffde9c0edbbf",
    "0x4e68ccd3e89f51c3074ca5072bbac773960dfa36",
    "0x7ee9f7b851fb9c8c2f8bfd7b49cc74b68f48f3a6",
    "0x2b5634c42055806a59e9107ed44d43c426e58258",
    "0x689c56aef474df92d44a1b70850f808488f9769c",
    "0xa1d8d972560c2f8144af871db508f0b0b10a3fbf",
    "0x1692e170361cefd1eb7240ec13d048fd9af6d667",
    "0xd6216fc19db775df9774a6e33526131da7d19a2c",
    "0xcdd7c759e0b140f7e6508fc00da24733cb43ce2b",
    "0x1c4b70a3968436b9a0a9cf5205c787eb81bb558c",
    "0x503828976d22510aad0201ac7ec88293211d23da",
    "0x61edcdf5bb737adffe5043706e7332c5807a70af",
    "0xab5c66752a9e8167967685f1450532fb96d5d24f",
    "0x5861b8446a2f6e19a067874c133f04c578928727",
    "0x926fc576b7facf6ae2d08ee2d4734c134a99f584",
    "0x18916e1a2933cb349145a667390d3a915be5fad7",
    "0x6748f50f686bfbca6fe8ad62b22228b87f31ff2b",
    "0x90e9a4a7bf87b8b9ce5e0994db2a77e65ff6e780",
    "0xeee28d484628d41a82d01e21d12e2e78d69920da",
    "0xcafb10ee663f465f9d10588ac44ed20ed608c11e",
    "0x876eabf441b2ee5b5b0554fd502a8e0600950cfa",
    "0xdac17f958d2ee523a2206206994597c13d831ec7",
    "0x4fabb145d64652a948d72533023f6e7a623c7c53",
    "0x1151314c646ce4e0efd76d1af4760ae66a9fe30f",
    "0x7727e5113d1d161373623e5f49fd568b4f543a9e",
    "0xc61b9bb3a7a0767e3179713f3a5c7a9aedce193c",
    "0xa9d1e08c7793af67e9d92fe308d5697fb81d3e43",
    "0x77696bb39917c91a0c3908d577d5e322095425ca",
    "0x503828976d22510aad0201ac7ec88293211d23da",
    "0xddfabcdc4d8ffc6d5beaf154f18b778f892a0740",
    "0x3cd751e6b0078be393132286c442345e5dc49699",
    "0xb5d85cbf7cb3ee0d56b3bb207d5fc4b82f43f511",
    "0xeb2629a2734e272bcc07bda959863f316f4bd4cf",
    "0xd688aea8f7d450909ade10c47faa95707b0682d9",
    "0x02466e547bfdab679fc49e5041ff6af2765c91a1",
    "0x6b76f8b1e9e59913bfe758821887311ba1805cab",
    "0x8b4de256180cfec54c436a470af50f9ee2813dbb",
    "0xcffad3200574698b78f32232aa9d63eabd290703" ].map strUnits

/-- The static DeFi-address set of `DelegatorFilter` (`knownDefiAddresses`). -/
def knownDefiAddresses : List (List Nat) :=
  [ "0x8f3cf7ad23cd3cadbd9735aff958023239c6a063",
    "0x0d500b1d8e8ef31e21c99d1db9a6444d3adf1270",
    "0x7ceb23fd6f88a99bb5e7e5ed51d11ac5b1e2d0cd",
    "0x794a61358d6845594f94dc1db02a252b5b4814ad",
    "0x1a13f4ca1d028320a707d99520abfefca3998b7f",
    "0x8dff5e27ea6b7ac08ebfdf9eb090f32ee9a30fcf",
    "0xa3fa99a148fa48d14ed51d610c367c61876997f1",
    "0x5a6a4d54456819c5ba4bacc9a8f0bc37c9eb0ecc",
    "0x8e32fe11b35db68c10326c8b3e5c5b99f5b90e5c",
    "0x47bb542b9de58b970ba50c9dae444ddb4c16751a",
    "0x5757371414417b8c6caad45baef941abc7d3ab32",
    "0x8dff5e27ea6b7ac08ebfdf9eb090f32ee9a30fcf",
    "0xa5e0829caced8ffdd4de3c43696c57f7d7a678ff",
    "0x68b3465833fb72a70ecdf485e0e4c7bd8665fc45",
    "0xe592427a0aece92de3edee1f18e0157c05861564",
    "0x1f98431c8ad98523631ae4a59f267346ea31f984",
    "0x0169ec1f8f639b32eec6d923e24c2a2ff45b9dd6",
    "0x1b02da8cb0d097eb8d57a175b88c7d8b47997506",
    "0xc0788a3ad43d79aa53c09c2cc9db92b73d4c24a6",
    "0xdef1c0ded9bec7f1a1670819833240f027b25eff",
    "0x61935cbdd02287b511119ddb11aeb42f1593b7ef",
    "0x5f4ec3df9cbd43714fe2740f5e3616155c5b8419",
    "0xab594600376ec9fd91f8e885dadf0ce036862de0",
    "0x9aa7fec87ca69695dd1f879567ccf49eeb6c04e8",
    "0xba12222222228d8ba445958a75a0704d566bf2c8",
    "0x4e65fe4dba92790696d040ac24aa414708f5c0ab",
    "0x401f6c983ea34274ec46f84d70b31c151321188b",
    "0xa0c68c638235ee32657e8f720a23cec1bfc77c77",
    "0x8484ef722627bf18ca5ae6bcf031c23e6e922b30" ].map strUnits

/-- The classification record `classifyAddressBasic` returns. -/
structure Classification where
  isExchangeOrDefi : Bool
  type : String
  source : String
  confidence : String
deriving DecidableEq, Repr

/-- Embedding of `DelegatorFilter.isKnownExchangeOrDefi`: membership of the lower-cased
address in either static set. -/
def isKnownExchangeOrDefi (address : List Nat) : Bool :=
  knownExchangeAddresses.contains (jsToLower address) ||
    knownDefiAddresses.contains (jsToLower address)

/-- Embedding of `DelegatorFilter.classifyAddressBasic`. The per-run memoization cache is
omitted: the function writes to the cache exactly the value it returns for the
lower-cased key, so the cached path returns the same record and the function is
a pure function of the address string. No branch can throw. -/
def classifyAddressBasic (address : List Nat) : Classification :=
  if isKnownExchangeOrDefi address then
    { isExchangeOrDefi := true
      type := if knownExchangeAddresses.contains (jsToLower address) then "exchange" else "defi"
      source := "local"
      confidence := "high" }
  else
    { isExchangeOrDefi := false
      type := "individual"
      source := "default"
      confidence := "low" }

theorem jsToLower_jsToUpper (s : List Nat) : jsToLower (jsToUpper s) = jsToLower s := by
  simp only [jsToLower, jsToUpper, List.map_map]
  apply List.map_congr_left
  intro c _
  simp only [Function.comp_apply, jsLowerCode, jsUpperCode]
  split_ifs <;> omega

/-- C6: classification is a deterministic function of the address string and is
case-insensitive: classifying the upper-cased address gives the same record as
classifying the address itself (both look up the lower-cased string), and in
particular an address whose lower-casing is in the static exchange set is
classified as an exchange whatever the letter case of the input. -/
theorem classifyAddressBasic_caseInsensitive (address : List Nat) :
    classifyAddressBasic (jsToUpper address) = classifyAddressBasic address ∧
      (knownExchangeAddresses.contains (jsToLower address) = true →
        (classifyAddressBasic address).type = "exchange") := by
  constructor
  · simp [classifyAddressBasic, isKnownExchangeOrDefi, jsToLower_jsToUpper]
  · intro h
    have hmem : jsToLower address ∈ knownExchangeAddresses := by simpa using h
    simp [classifyAddressBasic, isKnownExchangeOrDefi, hmem]

/-- C7: the classifier is a total in-memory lookup of the lower-cased address in
the static sets, and every address found in neither set gets the optimistic
default record: type `individual`, not an exchange or DeFi address, source
`default`. Nothing in the lookup can fail. -/
theorem classifyAddressBasic_default (address : List Nat)
    (h : isKnownExchangeOrDefi address = false) :
    classifyAddressBasic address =
      { isExchangeOrDefi := false, type := "individual",
        source := "default", confidence := "low" } := by
  simp [classifyAddressBasic, h]

/-- Witness for the default-classification theorem at a concrete address that is
in neither static set. -/
theorem classifyAddressBasic_default_witness :
    classifyAddressBasic (strUnits "0x1234567890abcdef1234567890abcdef12345678") =
      { isExchangeOrDefi := false, type := "individual",
        source := "default", confidence := "low" } :=
  classifyAddressBasic_default _ (by decide)

/-- The result record of `DelegatorFilter.filterDelegatorAddresses`: the kept
individual delegators and the three `filteredOut` buckets plus the
unknown/error bucket. -/
structure FilterResults where
  individualDelegators : List (List Nat)
  filteredExchanges : List (List Nat)
  filteredDefi : List (List Nat)
  filteredInstitutional : List (List Nat)
  filteredUnknown : List (List Nat)
deriving DecidableEq, Repr

/-- One iteration of the result-dispatch loop of `filterDelegatorAddresses`
(the `for (const { address, classification } of batchResults)` body).
`classifyAddressBasic` is total, so the `catch` branch that would produce a
classification of type `unknown` is unreachable and the classification is
always the basic one. -/
def dispatchAddress (excludeExchanges excludeDefi excludeInstitutional : Bool)
    (r : FilterResults) (address : List Nat) : FilterResults :=
  let c := classifyAddressBasic address
  if c.type = "exchange" ∧ excludeExchanges then
    { r with filteredExchanges := r.filteredExchanges ++ [address] }
  else if c.type = "defi" ∧ excludeDefi then
    { r with filteredDefi := r.filteredDefi ++ [address] }
  else if c.type = "institutional" ∧ excludeInstitutional then
    { r with filteredInstitutional := r.filteredInstitutional ++ [address] }
  else if c.type = "individual" ∨ (¬excludeExchanges ∧ c.type = "exchange") ∨
      (¬excludeDefi ∧ c.type = "defi") ∨
      (¬excludeInstitutional ∧ c.type = "institutional") then
    { r with individualDelegators := r.individualDelegators ++ [address] }
  else
    { r with filteredUnknown := r.filteredUnknown ++ [address] }

/-- Embedding of `DelegatorFilter.filterDelegatorAddresses(addresses, options)`. The source
slices `addresses` into batches only to pace the (nonexistent) API calls; the
batches are processed in order and each batch's results dispatched in order, so
the result record is the in-order fold of the dispatch step over all
addresses. -/
def filterDelegatorAddresses (addresses : List (List Nat))
    (excludeExchanges excludeDefi excludeInstitutional : Bool) : FilterResults :=
  addresses.foldl (dispatchAddress excludeExchanges excludeDefi excludeInstitutional)
    ⟨[], [], [], [], []⟩

theorem classifyAddressBasic_type_cases (address : List Nat) :
    (classifyAddressBasic address).type ∈ (["exchange", "defi", "individual"] : List String) := by
  unfold classifyAddressBasic
  split_ifs <;> simp

theorem dispatchAddress_institutional (eE eD eI : Bool) (r : FilterResults)
    (address : List Nat) :
    (dispatchAddress eE eD eI r address).filteredInstitutional =
      r.filteredInstitutional := by
  have h := classifyAddressBasic_type_cases address
  simp only [dispatchAddress]
  split_ifs with h1 h2 h3 h4 <;> try rfl
  exact absurd (h3.1 ▸ h) (by decide)

theorem foldl_dispatch_institutional (eE eD eI : Bool) (addresses : List (List Nat))
    (r : FilterResults) :
    (addresses.foldl (dispatchAddress eE eD eI) r).filteredInstitutional =
      r.filteredInstitutional := by
  induction addresses generalizing r with
  | nil => rfl
  | cons a as ih => rw [List.foldl_cons, ih, dispatchAddress_institutional]

/-- C10: the static classifier only ever returns the types `exchange`, `defi`
or `individual` — never `institutional` — and consequently, although
`filterDelegatorAddresses` accepts an `excludeInstitutional` option (defaulting
to true), its `filteredOut.institutional` bucket is empty for every address
list and every combination of options: no address is ever filtered out as
institutional on the shipped static-list path. -/
theorem classifier_never_institutional :
    (∀ address : List Nat,
      (classifyAddressBasic address).type ∈ (["exchange", "defi", "individual"] : List String)) ∧
    (∀ (addresses : List (List Nat)) (eE eD eI : Bool),
      (filterDelegatorAddresses addresses eE eD eI).filteredInstitutional = []) :=
  ⟨classifyAddressBasic_type_cases,
   fun addresses eE eD eI => foldl_dispatch_institutional eE eD eI addresses _⟩

/-! ## Net-stake aggregation: ValidatorTracker.fetchAllDelegatorsAcrossValidators -/

/-- Embedding of `ValidatorTracker.fromWeiToPolNumberStatic` for a non-negative wei value.
The source takes the decimal string of `wei`, splits it into the digits before
the last 18 (the whole part, `wei / 10^18`) and the last 18 digits (the
fractional part, `wei % 10^18`, left-padded with zeros when the string is
short, trailing zeros trimmed — trimming does not change the denoted value),
and converts the resulting `"whole.frac"` string with `Number(...)`. `Number`
is IEEE-754 rounding in JS; the embedding idealizes it as the exact rational
the decimal string denotes. -/
def fromWeiToPolNumberStatic (wei : Nat) : ℚ :=
  ((wei / 10 ^ 18 : Nat) : ℚ) + ((wei % 10 ^ 18 : Nat) : ℚ) / 10 ^ 18

/-- One decoded delegation or unbond event as the aggregator consumes it:
`address` is the (lower-cased) user address and `amount` the event's `amount`
field, which the source has already converted to POL display units (a JS
`Number`, idealized as `ℚ`) before aggregation. -/
structure StakeEvt where
  address : String
  amount : ℚ
deriving DecidableEq

/-- One entry of the `addressStakes` map. -/
structure AddressStake where
  address : String
  totalDelegated : ℚ
  totalUnbonded : ℚ
  netStake : ℚ
deriving DecidableEq, Repr

/-- The `allDelegations.forEach` body: create the entry on first sight (with
zero totals) and add the event's amount to `totalDelegated`. The insertion-order
map `addressStakes` is an association list here. -/
def addDelegation (m : List AddressStake) (e : StakeEvt) : List AddressStake :=
  match m with
  | [] => [⟨e.address, e.amount, 0, 0⟩]
  | st :: rest =>
    if st.address = e.address then
      { st with totalDelegated := st.totalDelegated + e.amount } :: rest
    else
      st :: addDelegation rest e

/-- The `allUnbonds.forEach` body: create the entry on first sight and add the
event's amount to `totalUnbonded`. -/
def addUnbond (m : List AddressStake) (e : StakeEvt) : List AddressStake :=
  match m with
  | [] => [⟨e.address, 0, e.amount, 0⟩]
  | st :: rest =>
    if st.address = e.address then
      { st with totalUnbonded := st.totalUnbonded + e.amount } :: rest
    else
      st :: addUnbond rest e

/-- The `Object.values(addressStakes).forEach` pass that sets
`stake.netStake = stake.totalDelegated - stake.totalUnbonded`. -/
def computeNetStakes (m : List AddressStake) : List AddressStake :=
  m.map (fun st => { st with netStake := st.totalDelegated - st.totalUnbonded })

/-- The net-stake aggregation of `fetchAllDelegatorsAcrossValidators` (lines
443-512): fold the delegations, then the unbonds, into the address map, then
compute each entry's net stake. -/
def aggregateStakes (dels unbonds : List StakeEvt) : List AddressStake :=
  computeNetStakes ((unbonds.foldl addUnbond (dels.foldl addDelegation [])))

/-- The aggregate's `totalDelegated` for `addr` (0 when the address never
appears, as in the source where the entry simply does not exist). -/
def totalDelegatedOf (m : List AddressStake) (addr : String) : ℚ :=
  ((m.find? (fun st => st.address = addr)).map (fun st => st.totalDelegated)).getD 0

def totalUnbondedOf (m : List AddressStake) (addr : String) : ℚ :=
  ((m.find? (fun st => st.address = addr)).map (fun st => st.totalUnbonded)).getD 0

def netStakeOf (m : List AddressStake) (addr : String) : ℚ :=
  ((m.find? (fun st => st.address = addr)).map (fun st => st.netStake)).getD 0

/-- The reference value: the plain sum of the amounts of the events of `addr`. -/
def sumAmounts (evts : List StakeEvt) (addr : String) : ℚ :=
  ((evts.filter (fun e => e.address = addr)).map (fun e => e.amount)).sum

theorem totalDelegatedOf_addDelegation (m : List AddressStake) (e : StakeEvt)
    (addr : String) :
    totalDelegatedOf (addDelegation m e) addr =
      totalDelegatedOf m addr + (if e.address = addr then e.amount else 0) := by
  induction m with
  | nil =>
    by_cases h : e.address = addr <;>
      simp [addDelegation, totalDelegatedOf, List.find?, h]
  | cons st rest ih =>
    by_cases hst : st.address = e.address
    · by_cases h : e.address = addr <;>
        simp_all [addDelegation, totalDelegatedOf, List.find?_cons, hst, h]
    · by_cases hsa : st.address = addr
      · have h1 : ¬addr = e.address := fun hc => hst (hsa.trans hc)
        have h2 : ¬e.address = addr := fun hc => h1 hc.symm
        simp [addDelegation, totalDelegatedOf, List.find?_cons, hst, hsa, h1, h2]
      · simpa [addDelegation, totalDelegatedOf, List.find?_cons, hst, hsa] using ih

theorem totalUnbondedOf_addDelegation (m : List AddressStake) (e : StakeEvt)
    (addr : String) :
    totalUnbondedOf (addDelegation m e) addr = totalUnbondedOf m addr := by
  induction m with
  | nil =>
    by_cases h : e.address = addr <;>
      simp [addDelegation, totalUnbondedOf, List.find?, h]
  | cons st rest ih =>
    by_cases hst : st.address = e.address
    · by_cases h : st.address = addr <;>
        simp_all [addDelegation, totalUnbondedOf, List.find?_cons, hst, h]
    · by_cases hsa : st.address = addr <;>
        simp_all [addDelegation, totalUnbondedOf, List.find?_cons, hst, hsa]

theorem totalUnbondedOf_addUnbond (m : List AddressStake) (e : StakeEvt)
    (addr : String) :
    totalUnbondedOf (addUnbond m e) addr =
      totalUnbondedOf m addr + (if e.address = addr then e.amount else 0) := by
  induction m with
  | nil =>
    by_cases h : e.address = addr <;>
      simp [addUnbond, totalUnbondedOf, List.find?, h]
  | cons st rest ih =>
    by_cases hst : st.address = e.address
    · by_cases h : e.address = addr <;>
        simp_all [addUnbond, totalUnbondedOf, List.find?_cons, hst, h]
    · by_cases hsa : st.address = addr
      · have h1 : ¬addr = e.address := fun hc => hst (hsa.trans hc)
        have h2 : ¬e.address = addr := fun hc => h1 hc.symm
        simp [addUnbond, totalUnbondedOf, List.find?_cons, hst, hsa, h1, h2]
      · simpa [addUnbond, totalUnbondedOf, List.find?_cons, hst, hsa] using ih

theorem totalDelegatedOf_addUnbond (m : List AddressStake) (e : StakeEvt)
    (addr : String) :
    totalDelegatedOf (addUnbond m e) addr = totalDelegatedOf m addr := by
  induction m with
  | nil =>
    by_cases h : e.address = addr <;>
      simp [addUnbond, totalDelegatedOf, List.find?, h]
  | cons st rest ih =>
    by_cases hst : st.address = e.address
    · by_cases h : st.address = addr <;>
        simp_all [addUnbond, totalDelegatedOf, List.find?_cons, hst, h]
    · by_cases hsa : st.address = addr <;>
        simp_all [addUnbond, totalDelegatedOf, List.find?_cons, hst, hsa]

theorem totalDelegatedOf_foldl_addDelegation (dels : List StakeEvt)
    (m : List AddressStake) (addr : String) :
    totalDelegatedOf (dels.foldl addDelegation m) addr =
      totalDelegatedOf m addr + sumAmounts dels addr := by
  induction dels generalizing m with
  | nil => simp [sumAmounts]
  | cons e es ih =>
    rw [List.foldl_cons, ih, totalDelegatedOf_addDelegation]
    by_cases h : e.address = addr <;> simp [sumAmounts, h] <;> ring

theorem totalUnbondedOf_foldl_addDelegation (dels : List StakeEvt)
    (m : List AddressStake) (addr : String) :
    totalUnbondedOf (dels.foldl addDelegation m) addr = totalUnbondedOf m addr := by
  induction dels generalizing m with
  | nil => rfl
  | cons e es ih => rw [List.foldl_cons, ih, totalUnbondedOf_addDelegation]

theorem totalUnbondedOf_foldl_addUnbond (unbonds : List StakeEvt)
    (m : List AddressStake) (addr : String) :
    totalUnbondedOf (unbonds.foldl addUnbond m) addr =
      totalUnbondedOf m addr + sumAmounts unbonds addr := by
  induction unbonds generalizing m with
  | nil => simp [sumAmounts]
  | cons e es ih =>
    rw [List.foldl_cons, ih, totalUnbondedOf_addUnbond]
    by_cases h : e.address = addr <;> simp [sumAmounts, h] <;> ring

theorem totalDelegatedOf_foldl_addUnbond (unbonds : List StakeEvt)
    (m : List AddressStake) (addr : String) :
    totalDelegatedOf (unbonds.foldl addUnbond m) addr = totalDelegatedOf m addr := by
  induction unbonds generalizing m with
  | nil => rfl
  | cons e es ih => rw [List.foldl_cons, ih, totalDelegatedOf_addUnbond]

theorem find?_computeNetStakes (m : List AddressStake) (addr : String) :
    (computeNetStakes m).find? (fun st => st.address = addr) =
      (m.find? (fun st => st.address = addr)).map
        (fun st => { st with netStake := st.totalDelegated - st.totalUnbonded }) := by
  induction m with
  | nil => rfl
  | cons st rest ih =>
    by_cases h : st.address = addr <;>
      simp [computeNetStakes, List.find?_cons, h, ih] <;> rfl

theorem netStakeOf_computeNetStakes (m : List AddressStake) (addr : String) :
    netStakeOf (computeNetStakes m) addr =
      totalDelegatedOf m addr - totalUnbondedOf m addr := by
  unfold netStakeOf totalDelegatedOf totalUnbondedOf
  rw [find?_computeNetStakes]
  cases m.find? (fun st => st.address = addr) <;> simp

theorem totalDelegatedOf_computeNetStakes (m : List AddressStake) (addr : String) :
    totalDelegatedOf (computeNetStakes m) addr = totalDelegatedOf m addr := by
  unfold totalDelegatedOf
  rw [find?_computeNetStakes]
  cases m.find? (fun st => st.address = addr) <;> simp

theorem totalUnbondedOf_computeNetStakes (m : List AddressStake) (addr : String) :
    totalUnbondedOf (computeNetStakes m) addr = totalUnbondedOf m addr := by
  unfold totalUnbondedOf
  rw [find?_computeNetStakes]
  cases m.find? (fun st => st.address = addr) <;> simp

/-- C3 (amended): for every decoded event set and every address — including
addresses with zero delegations or zero unbondings — the aggregate's
`totalDelegated` and `totalUnbonded` are the independent per-address sums of the
event amounts, and `netStake` equals `totalDelegated` minus `totalUnbonded`
exactly. The amounts summed are, as in the source, POL display-unit JS numbers
(idealized here as exact rationals), not base-unit big integers: the source
performs this aggregation with JS `Number` (binary floating-point) arithmetic,
not arbitrary-precision arithmetic. -/
theorem aggregateStakes_netStake (dels unbonds : List StakeEvt) (addr : String) :
    netStakeOf (aggregateStakes dels unbonds) addr =
        sumAmounts dels addr - sumAmounts unbonds addr ∧
      totalDelegatedOf (aggregateStakes dels unbonds) addr = sumAmounts dels addr ∧
      totalUnbondedOf (aggregateStakes dels unbonds) addr = sumAmounts unbonds addr ∧
      netStakeOf (aggregateStakes dels unbonds) addr =
        totalDelegatedOf (aggregateStakes dels unbonds) addr -
          totalUnbondedOf (aggregateStakes dels unbonds) addr := by
  have hd : totalDelegatedOf ((unbonds.foldl addUnbond (dels.foldl addDelegation []))) addr =
      sumAmounts dels addr := by
    rw [totalDelegatedOf_foldl_addUnbond, totalDelegatedOf_foldl_addDelegation]
    simp [totalDelegatedOf]
  have hu : totalUnbondedOf ((unbonds.foldl addUnbond (dels.foldl addDelegation []))) addr =
      sumAmounts unbonds addr := by
    rw [totalUnbondedOf_foldl_addUnbond, totalUnbondedOf_foldl_addDelegation]
    simp [totalUnbondedOf]
  refine ⟨?_, ?_, ?_, ?_⟩ <;>
    simp [aggregateStakes, netStakeOf_computeNetStakes,
      totalDelegatedOf_computeNetStakes, totalUnbondedOf_computeNetStakes, hd, hu]

/-- C3 counterexample to the claim as stated: the aggregator does not sum in
base units. A single delegation event of 1 wei (base-unit value 1) to address
`0xa` — whose amount reaches the aggregator as
`fromWeiToPolNumberStatic(1)`, exactly as in the source — yields
`totalDelegated = 10⁻¹⁸ POL`, not the base-unit sum `1`; even under the
embedding's exact-rational idealization of JS `Number`, the sums are display-unit
quantities, and in the source they are IEEE-754 doubles besides. -/
theorem aggregateStakes_not_base_units :
    totalDelegatedOf (aggregateStakes [⟨"0xa", fromWeiToPolNumberStatic 1⟩] []) "0xa" =
        1 / 10 ^ 18 ∧
      (1 / 10 ^ 18 : ℚ) ≠ 1 := by
  constructor
  · norm_num [aggregateStakes, computeNetStakes, addDelegation, totalDelegatedOf,
      List.find?, fromWeiToPolNumberStatic]
  · norm_num

/-! ## Ranking: sort by net stake descending, truncate to top-N -/

/-- Insertion step of a stable descending sort keyed on `netStake`: the element
`x` (arriving later in the original order) is placed after every
already-inserted element whose key is greater than or equal to its own. This is
the ordering and stability contract of the source's
`.sort((a, b) => b.netStake - a.netStake)` (JS `Array.prototype.sort` is
stable: ties keep their original relative order). -/
def insertDesc (x : AddressStake) : List AddressStake → List AddressStake
  | [] => [x]
  | y :: ys => if x.netStake ≤ y.netStake then y :: insertDesc x ys else x :: y :: ys

/-- Stable descending sort by `netStake`, processing the list in order. -/
def sortByNetStakeDesc (l : List AddressStake) : List AddressStake :=
  l.foldl (fun acc x => insertDesc x acc) []

/-- The ranking step of `fetchAllDelegatorsAcrossValidators` (lines 514-522):
keep the addresses with strictly positive net stake, sort by net stake
descending, truncate with `.slice(0, limit)` and attach 1-based ranks. The same
shape ranks the top delegators in the direct-RPC script's `main`. -/
def rankTopDelegators (stakes : List AddressStake) (limit : Nat) :
    List (Nat × AddressStake) :=
  (((sortByNetStakeDesc (stakes.filter (fun st => 0 < st.netStake))).take limit).enum).map
    (fun p => (p.1 + 1, p.2))

theorem insertDesc_perm (x : AddressStake) (l : List AddressStake) :
    List.Perm (insertDesc x l) (x :: l) := by
  induction l with
  | nil => rfl
  | cons y ys ih =>
    by_cases h : x.netStake ≤ y.netStake
    · simp only [insertDesc, if_pos h]
      exact (List.Perm.cons y ih).trans (List.Perm.swap x y ys)
    · simp [insertDesc, if_neg h]

theorem sortByNetStakeDesc_perm_aux (l : List AddressStake) (acc : List AddressStake) :
    List.Perm (l.foldl (fun acc x => insertDesc x acc) acc) (acc ++ l) := by
  induction l generalizing acc with
  | nil => simp
  | cons e es ih =>
    rw [List.foldl_cons]
    refine (ih (insertDesc e acc)).trans ?_
    have h1 : List.Perm (insertDesc e acc ++ es) ((e :: acc) ++ es) :=
      (insertDesc_perm e acc).append_right es
    refine h1.trans ?_
    simpa using (List.perm_middle :
      List.Perm (acc ++ e :: es) (e :: (acc ++ es))).symm

theorem sortByNetStakeDesc_perm (l : List AddressStake) :
    List.Perm (sortByNetStakeDesc l) l := by
  simpa using sortByNetStakeDesc_perm_aux l []

theorem insertDesc_pairwise (x : AddressStake) (l : List AddressStake)
    (hl : List.Pairwise (fun a b => b.netStake ≤ a.netStake) l) :
    List.Pairwise (fun a b => b.netStake ≤ a.netStake) (insertDesc x l) := by
  induction l with
  | nil => simp [insertDesc]
  | cons y ys ih =>
    rw [List.pairwise_cons] at hl
    obtain ⟨hy, hys⟩ := hl
    by_cases h : x.netStake ≤ y.netStake
    · simp only [insertDesc, if_pos h]
      rw [List.pairwise_cons]
      refine ⟨?_, ih hys⟩
      intro z hz
      rcases List.mem_cons.mp ((insertDesc_perm x ys).mem_iff.mp hz) with hz | hz
      · exact hz ▸ h
      · exact hy z hz
    · simp only [insertDesc, if_neg h]
      push_neg at h
      rw [List.pairwise_cons]
      refine ⟨?_, ?_⟩
      · intro z hz
        rcases List.mem_cons.mp hz with hz | hz
        · exact hz ▸ h.le
        · exact (hy z hz).trans h.le
      · rw [List.pairwise_cons]
        exact ⟨hy, hys⟩

theorem sortByNetStakeDesc_pairwise (l : List AddressStake) :
    List.Pairwise (fun a b => b.netStake ≤ a.netStake) (sortByNetStakeDesc l) := by
  suffices h : ∀ acc, List.Pairwise (fun a b : AddressStake => b.netStake ≤ a.netStake) acc →
      List.Pairwise (fun a b => b.netStake ≤ a.netStake)
        (l.foldl (fun acc x => insertDesc x acc) acc) by
    exact h [] (by simp)
  induction l with
  | nil => exact fun acc h => h
  | cons e es ih =>
    intro acc hacc
    rw [List.foldl_cons]
    exact ih _ (insertDesc_pairwise e acc hacc)

/-- C8 (amended): the ranked output is sorted by net stake in descending order
and truncated to the caller's top-N, and every ranked entry has strictly
positive net stake and comes from the input; ties between equal net stakes keep
the order in which the aggregator first produced the addresses (JS stable
sort), not ascending address order. -/
theorem rankTopDelegators_spec (stakes : List AddressStake) (limit : Nat) :
    List.Pairwise (fun a b : Nat × AddressStake => b.2.netStake ≤ a.2.netStake)
        (rankTopDelegators stakes limit) ∧
      (rankTopDelegators stakes limit).length ≤ limit ∧
      ∀ p ∈ rankTopDelegators stakes limit, 0 < p.2.netStake ∧ p.2 ∈ stakes := by
  set fl := stakes.filter (fun st => 0 < st.netStake) with hfl
  set t := (sortByNetStakeDesc fl).take limit with ht
  refine ⟨?_, ?_, ?_⟩
  · have hsorted : List.Pairwise (fun a b => b.netStake ≤ a.netStake) t :=
      (sortByNetStakeDesc_pairwise fl).sublist (List.take_sublist _ _)
    have henum : List.Pairwise (fun p q : Nat × AddressStake => q.2.netStake ≤ p.2.netStake)
        t.enum := by
      have hiff := (List.pairwise_map
        (f := (Prod.snd : Nat × AddressStake → AddressStake))
        (R := fun a b : AddressStake => b.netStake ≤ a.netStake) (l := t.enum))
      rw [List.enum_map_snd] at hiff
      exact hiff.mp hsorted
    exact (List.pairwise_map).mpr henum
  · simp only [rankTopDelegators]
    rw [List.length_map, List.enum_length, ← ht, List.length_take]
    omega
  · intro p hp
    simp only [rankTopDelegators, List.mem_map] at hp
    obtain ⟨q, hq, hqp⟩ := hp
    have hsnd : q.2 ∈ t := by
      have hmm : q.2 ∈ t.enum.map Prod.snd := List.mem_map_of_mem Prod.snd hq
      rwa [List.enum_map_snd] at hmm
    have hmem : p.2 ∈ t := by
      have hpq : p.2 = q.2 := by rw [← hqp]
      rw [hpq]; exact hsnd
    have hsort : p.2 ∈ sortByNetStakeDesc fl := List.mem_of_mem_take hmem
    have hfilter : p.2 ∈ fl := (sortByNetStakeDesc_perm fl).mem_iff.mp hsort
    rw [hfl] at hfilter
    have hsplit := List.mem_filter.mp hfilter
    exact ⟨by simpa using hsplit.2, hsplit.1⟩

/-- C8 counterexample to the tie-breaking rule as claimed: two addresses with
equal net stake, first encountered in the order `0xb`, `0xa`. The ranking keeps
that encounter order (stable sort), producing `0xb` before `0xa`, not the
claimed ascending address order `0xa` before `0xb`. -/
theorem rankTopDelegators_ties_not_address_ascending :
    ((rankTopDelegators [⟨"0xb", 5, 0, 5⟩, ⟨"0xa", 5, 0, 5⟩] 10).map
        (fun p => p.2.address)) = ["0xb", "0xa"] ∧
      (["0xb", "0xa"] : List String) ≠ ["0xa", "0xb"] := by
  constructor
  · decide
  · decide

/-! ## Log fetching with adaptive batch splitting: DirectRPCDelegatorFetcher.fetchLogs -/

/-- The blocks of the query range `[f, t]`, in ascending order (empty when
`t < f`). -/
def blockList (f t : Int) : List Int :=
  (List.range (t + 1 - f).toNat).map (fun i => f + Int.ofNat i)

/-- The logs a single (hypothetical, unbounded) `eth_getLogs` query over
`[f, t]` returns: the provider `L` gives the matching logs of each block, and a
range query returns them in ascending block order. -/
def getLogsRange (L : Int → List Nat) (f t : Int) : List Nat :=
  (blockList f t).flatMap L

/-- Embedding of `DirectRPCDelegatorFetcher.fetchLogs(fromBlock, toBlock, batchSize)`.

The `while (currentFrom <= toBlock)` loop is the tail recursion on
`(ct + 1, t, b)`; a batch `[f, ct]` the oracle `tooLarge` rejects (the provider
error whose message says "query returned more than ..." or "exceed maximum") is
halved — `halfBatch = Math.floor((currentTo - currentFrom + 1) / 2)` — and the
two halves are fetched recursively with `halfBatch` as the new batch size
before the loop continues. `Int` division `/` agrees with `Math.floor` here
because the dividend is non-negative on every reachable input. The source has
no recursion bound; `fuel` makes the recursion well-founded in the embedding,
with `none` meaning the source would still be recursing (no value is ever
returned). The result pairs the accumulated logs with the trace of issued
`eth_getLogs` range queries. -/
def fetchLogs (L : Int → List Nat) (tooLarge : Int → Int → Bool) :
    Nat → Int → Int → Int → Option (List Nat × List (Int × Int))
  | 0, _, _, _ => none
  | fuel + 1, f, t, b =>
    if t < f then some ([], [])
    else
      let ct := min (f + b - 1) t
      if tooLarge f ct then
        (fetchLogs L tooLarge fuel f (f + (ct - f + 1) / 2 - 1) ((ct - f + 1) / 2)).bind
          (fun r1 => (fetchLogs L tooLarge fuel (f + (ct - f + 1) / 2) ct ((ct - f + 1) / 2)).bind
            (fun r2 => (fetchLogs L tooLarge fuel (ct + 1) t b).bind
              (fun r3 => some (r1.1 ++ r2.1 ++ r3.1, (f, ct) :: (r1.2 ++ r2.2 ++ r3.2)))))
      else
        (fetchLogs L tooLarge fuel (ct + 1) t b).bind
          (fun r => some (getLogsRange L f ct ++ r.1, (f, ct) :: r.2))

theorem fetchLogs_done (L : Int → List Nat) (o : Int → Int → Bool) (n : Nat)
    (f t b : Int) (h : t < f) : fetchLogs L o (n + 1) f t b = some ([], []) := by
  simp [fetchLogs, h]

theorem fetchLogs_ok (L : Int → List Nat) (o : Int → Int → Bool) (n : Nat)
    (f t b : Int) (h : ¬t < f) (ho : o f (min (f + b - 1) t) = false) :
    fetchLogs L o (n + 1) f t b =
      (fetchLogs L o n (min (f + b - 1) t + 1) t b).bind
        (fun r => some (getLogsRange L f (min (f + b - 1) t) ++ r.1,
          (f, min (f + b - 1) t) :: r.2)) := by
  simp [fetchLogs, h, ho]

theorem fetchLogs_split (L : Int → List Nat) (o : Int → Int → Bool) (n : Nat)
    (f t b : Int) (h : ¬t < f) (ho : o f (min (f + b - 1) t) = true) :
    fetchLogs L o (n + 1) f t b =
      (fetchLogs L o n f (f + (min (f + b - 1) t - f + 1) / 2 - 1)
          ((min (f + b - 1) t - f + 1) / 2)).bind
        (fun r1 => (fetchLogs L o n (f + (min (f + b - 1) t - f + 1) / 2)
            (min (f + b - 1) t) ((min (f + b - 1) t - f + 1) / 2)).bind
          (fun r2 => (fetchLogs L o n (min (f + b - 1) t + 1) t b).bind
            (fun r3 => some (r1.1 ++ r2.1 ++ r3.1,
              (f, min (f + b - 1) t) :: (r1.2 ++ r2.2 ++ r3.2))))) := by
  simp [fetchLogs, h, ho]

theorem blockList_append (f m t : Int) (h1 : f ≤ m + 1) (h2 : m ≤ t) :
    blockList f m ++ blockList (m + 1) t = blockList f t := by
  unfold blockList
  have ha : (t + 1 - f).toNat = (m + 1 - f).toNat + (t - m).toNat := by omega
  rw [ha, List.range_add, List.map_append, List.map_map]
  have hc : (t + 1 - (m + 1)).toNat = (t - m).toNat := by omega
  rw [hc]
  congr 1
  apply List.map_congr_left
  intro i hi
  simp only [Function.comp_apply, Int.ofNat_eq_coe]
  push_cast
  omega

theorem getLogsRange_append (L : Int → List Nat) (f m t : Int)
    (h1 : f ≤ m + 1) (h2 : m ≤ t) :
    getLogsRange L f m ++ getLogsRange L (m + 1) t = getLogsRange L f t := by
  unfold getLogsRange
  rw [← List.flatMap_append, blockList_append f m t h1 h2]

theorem getLogsRange_empty (L : Int → List Nat) (f t : Int) (h : t < f) :
    getLogsRange L f t = [] := by
  unfold getLogsRange blockList
  have hz : (t + 1 - f).toNat = 0 := by omega
  simp [hz]

/-- C1 (amended): for every range `[f, t]`, every batch size of at least one
block, and every pattern of "too large" provider failures that never rejects a
single-block query, `fetchLogs` (given enough fuel for its unbounded recursion)
terminates and returns exactly the logs that the single unbounded query over
`[f, t]` would return — equal as lists, so no duplicates and no omissions. -/
theorem fetchLogs_complete (L : Int → List Nat) (tooLarge : Int → Int → Bool)
    (fuel : Nat) (f t b : Int) (hb : 1 ≤ b)
    (hsingle : ∀ a : Int, tooLarge a a = false)
    (hfuel : (t + 1 - f).toNat < fuel) :
    Option.map Prod.fst (fetchLogs L tooLarge fuel f t b) =
      some (getLogsRange L f t) := by
  induction fuel generalizing f t b with
  | zero => omega
  | succ n ih =>
    by_cases hft : t < f
    · rw [getLogsRange_empty L f t hft, fetchLogs_done L tooLarge n f t b hft]
      rfl
    · have hctf : f ≤ min (f + b - 1) t := by omega
      have hctt : min (f + b - 1) t ≤ t := min_le_right _ _
      by_cases htl : tooLarge f (min (f + b - 1) t) = true
      · -- the batch is rejected: both halves, then the rest of the loop
        have hflt : f < min (f + b - 1) t := by
          rcases lt_or_eq_of_le hctf with hlt | heq
          · exact hlt
          · rw [← heq, hsingle f] at htl
            exact absurd htl (by simp)
        rw [fetchLogs_split L tooLarge n f t b hft htl]
        set ct := min (f + b - 1) t with hct
        set hb2 := (ct - f + 1) / 2 with hhb2
        have hhb2pos : 1 ≤ hb2 := by omega
        have hhb2lt : hb2 ≤ ct - f := by omega
        have i1 := ih f (f + hb2 - 1) hb2 hhb2pos (by omega)
        have i2 := ih (f + hb2) ct hb2 hhb2pos (by omega)
        have i3 := ih (ct + 1) t b hb (by omega)
        rcases Option.map_eq_some'.mp i1 with ⟨r1, hr1, hv1⟩
        rcases Option.map_eq_some'.mp i2 with ⟨r2, hr2, hv2⟩
        rcases Option.map_eq_some'.mp i3 with ⟨r3, hr3, hv3⟩
        have e1 : f + hb2 - 1 + 1 = f + hb2 := by ring
        have happ1 := getLogsRange_append L f (f + hb2 - 1) ct (by omega) (by omega)
        rw [e1] at happ1
        have happ2 := getLogsRange_append L f ct t (by omega) (by omega)
        rw [hr1, hr2, hr3]
        simp only [Option.some_bind, Option.map_some']
        rw [hv1, hv2, hv3, happ1, happ2]
      · -- the batch succeeds: one range query, then the rest of the loop
        rw [Bool.not_eq_true] at htl
        rw [fetchLogs_ok L tooLarge n f t b hft htl]
        have i3 := ih (min (f + b - 1) t + 1) t b hb (by omega)
        rcases Option.map_eq_some'.mp i3 with ⟨r3, hr3, hv3⟩
        rw [hr3]
        simp only [Option.some_bind, Option.map_some']
        rw [hv3, getLogsRange_append L f (min (f + b - 1) t) t (by omega) hctt]

/-- A provider with no logs at all. -/
def noLogs : Int → List Nat := fun _ => []

/-- The failure pattern that answers every `eth_getLogs` query, at every
recursion depth, with a "too large" error. -/
def alwaysTooLarge : Int → Int → Bool := fun _ _ => true

/-- The divergence of `fetchLogs` on a rejected single-block batch: on the
one-block range `[0, 0]` with batch size 1, under the always-failing pattern,
no amount of fuel makes `fetchLogs` return — splitting a one-block batch gives
`halfBatch = 0`, and the second recursive call re-enters the same one-block
range with batch size 0 forever (in the source, an infinite recursion /
non-advancing loop). -/
def fetchLogsSingletonDivergence : Prop :=
  ∀ fuel : Nat, fetchLogs noLogs alwaysTooLarge fuel 0 0 1 = none

theorem fetchLogs_alwaysFail_aux (fuel : Nat) :
    fetchLogs noLogs alwaysTooLarge fuel 0 0 0 = none ∧
      fetchLogs noLogs alwaysTooLarge fuel 0 0 1 = none := by
  induction fuel with
  | zero => exact ⟨rfl, rfl⟩
  | succ n ih =>
    constructor
    · rw [fetchLogs_split noLogs alwaysTooLarge n 0 0 0 (by norm_num) rfl]
      norm_num
      cases hc1 : fetchLogs noLogs alwaysTooLarge n 0 (-1) 0 with
      | none => simp
      | some r1 => simp [ih.1]
    · rw [fetchLogs_split noLogs alwaysTooLarge n 0 0 1 (by norm_num) rfl]
      norm_num
      cases hc1 : fetchLogs noLogs alwaysTooLarge n 0 (-1) 0 with
      | none => simp
      | some r1 => simp [ih.1]

/-- C1 counterexample to the claim as stated, which quantifies over every
failure pattern at every recursion depth: under the pattern that also rejects
single-block queries, `fetchLogs` on `[0, 0]` never returns at all (the
source's recursion never terminates), so it does not return the unbounded
query's logs. -/
theorem fetchLogs_diverges_on_singleton : fetchLogsSingletonDivergence :=
  fun fuel => (fetchLogs_alwaysFail_aux fuel).2

/-- Witness for the amended batch-splitting theorem: a provider failure pattern
that rejects every query of two or more blocks (but no single-block query)
still yields exactly the unbounded query's logs over `[0, 3]`. -/
theorem fetchLogs_complete_witness :
    Option.map Prod.fst
        (fetchLogs (fun bn => [bn.toNat]) (fun p q => decide (p < q)) 6 0 3 2) =
      some (getLogsRange (fun bn => [bn.toNat]) 0 3) :=
  fetchLogs_complete (fun bn => [bn.toNat]) (fun p q => decide (p < q)) 6 0 3 2
    (by norm_num) (fun a => by simp) (by norm_num)

/-- C5: over a requested range of exactly 12,000 blocks with the default batch
size of 5,000 and no provider failures, `fetchLogs` issues exactly 3 range
queries, and the queried sub-ranges partition the original range contiguously —
`[f, f+4999]`, `[f+5000, f+9999]`, `[f+10000, f+11999]` — with no gaps and no
overlaps. -/
theorem fetchLogs_threeBatches (L : Int → List Nat) (f t : Int) (h : t = f + 11999) :
    Option.map Prod.snd (fetchLogs L (fun _ _ => false) 5 f t 5000) =
      some [(f, f + 4999), (f + 5000, f + 9999), (f + 10000, f + 11999)] := by
  subst h
  have m1 : min (f + 5000 - 1) (f + 11999) = f + 4999 := by omega
  rw [fetchLogs_ok L _ 4 f (f + 11999) 5000 (by omega) rfl, m1]
  have m2 : min (f + 4999 + 1 + 5000 - 1) (f + 11999) = f + 9999 := by omega
  rw [fetchLogs_ok L _ 3 (f + 4999 + 1) (f + 11999) 5000 (by omega) rfl, m2]
  have m3 : min (f + 9999 + 1 + 5000 - 1) (f + 11999) = f + 11999 := by omega
  rw [fetchLogs_ok L _ 2 (f + 9999 + 1) (f + 11999) 5000 (by omega) rfl, m3]
  rw [fetchLogs_done L _ 1 (f + 11999 + 1) (f + 11999) 5000 (by omega)]
  simp only [Option.some_bind, Option.map_some']
  refine congrArg some ?_
  have e1 : f + 4999 + 1 = f + 5000 := by ring
  have e2 : f + 9999 + 1 = f + 10000 := by ring
  rw [e1, e2]

/-- Witness for the three-batch partition theorem at the concrete range
`[0, 11999]`. -/
theorem fetchLogs_threeBatches_witness :
    Option.map Prod.snd (fetchLogs noLogs (fun _ _ => false) 5 0 (0 + 11999) 5000) =
      some [(0, 0 + 4999), (0 + 5000, 0 + 9999), (0 + 10000, 0 + 11999)] :=
  fetchLogs_threeBatches noLogs 0 (0 + 11999) rfl

/-! ## Event decoding: DirectRPCDelegatorFetcher.parseShareMintedEvent -/

/-- The value of one hex digit character, or `none` when the character is not a
hex digit. -/
def hexDigitVal (c : Char) : Option Nat :=
  if '0' ≤ c ∧ c ≤ '9' then some (c.toNat - 48)
  else if 'a' ≤ c ∧ c ≤ 'f' then some (c.toNat - 87)
  else if 'A' ≤ c ∧ c ≤ 'F' then some (c.toNat - 55)
  else none

/-- JS `BigInt('0x' + s)` on a hex-digit string `s`: throws — `none` — when `s`
is empty or contains a non-hex character, otherwise the big-endian value. -/
def bigIntOfHex (s : List Char) : Option Nat :=
  if s.isEmpty then none
  else s.foldl (fun acc c => acc.bind (fun a => (hexDigitVal c).map (fun d => a * 16 + d)))
    (some 0)

/-- JS `parseInt(s, 16)`: an optional `0x`/`0X` prefix, then the longest leading
run of hex digits; `NaN` — `none` — when that run is empty. Never throws. -/
def jsParseIntHex (s : List Char) : Option Nat :=
  let s1 := if s.take 2 = ['0', 'x'] ∨ s.take 2 = ['0', 'X'] then s.drop 2 else s
  let ds := s1.takeWhile (fun c => (hexDigitVal c).isSome)
  if ds.isEmpty then none
  else some (ds.foldl (fun a c => a * 16 + (hexDigitVal c).getD 0) 0)

/-- JS `toLowerCase()` at the `Char` level (ASCII range, as in the address hex
strings this decoder lower-cases). -/
def jsToLowerChars (s : List Char) : List Char :=
  s.map (fun c => if 'A' ≤ c ∧ c ≤ 'Z' then Char.ofNat (c.toNat + 32) else c)

/-- A raw `eth_getLogs` log object as the decoder reads it. `topic1`/`topic2`
are `log.topics[1]`/`log.topics[2]` (present on every log matched by the
ShareMinted topic filter, which has two indexed parameters). -/
structure RawLog where
  topic1 : String
  topic2 : String
  data : String
  blockNumber : String
  transactionHash : String

/-- The decoded ShareMinted event. `validatorId`/`blockNumber` are `parseInt`
results (`none` is JS `NaN`, which does not throw); `amountWei` is the BigInt
read from the first 32-byte word of `data` — the source also derives the
display value `Number(amount) / 1e18` from it, which cannot throw and is
omitted here. -/
structure ShareMintedEvent where
  validatorId : Option Nat
  userAddress : List Char
  amountWei : Nat
  blockNumber : Option Nat
  transactionHash : String

/-- Embedding of `DirectRPCDelegatorFetcher.parseShareMintedEvent(log)`: reads the validator
id from `topics[1]`, the user address from the low 20 bytes of `topics[2]`
(`'0x' + log.topics[2].slice(26).toLowerCase()`), and the amount from
`BigInt('0x' + log.data.slice(2).slice(0, 64))`. The only statement that can
throw is the `BigInt` conversion — on an empty or non-hex digit string — and a
throw is `none`, which the caller's `try/catch` turns into skipping the log. -/
def parseShareMintedEvent (log : RawLog) : Option ShareMintedEvent :=
  let amountHex := (log.data.data.drop 2).take 64
  (bigIntOfHex amountHex).map (fun amount =>
    { validatorId := jsParseIntHex log.topic1.data
      userAddress := '0' :: 'x' :: jsToLowerChars (log.topic2.data.drop 26)
      amountWei := amount
      blockNumber := jsParseIntHex log.blockNumber.data
      transactionHash := log.transactionHash })

/-- The caller's batch loop (`logs.forEach` with a `try/catch` that skips the
log on a parse error): the decoded events of the logs whose parse did not
throw, in order. -/
def processShareMintedLogs (logs : List RawLog) : List ShareMintedEvent :=
  logs.filterMap parseShareMintedEvent

/-- A concrete log whose `data` carries 1 byte of payload (2 hex digits after
the `0x` prefix) — fewer than 32 bytes. -/
def shortDataLog : RawLog :=
  { topic1 := "0x000000000000000000000000000000000000000000000000000000000000001b"
    topic2 := "0x000000000000000000000000a1b2c3d4e5f6a7b8c9d0e1f2a3b4c5d6e7f8a9b0"
    data := "0x12"
    blockNumber := "0x10"
    transactionHash := "0xabc" }

/-- C4 counterexample to the claim as stated: a raw log whose `data` field
holds fewer than 32 bytes of payload (here 1 byte, `0x12`) is not dropped — the
decoder still produces an event for it, reading the whole short payload as the
amount (`BigInt` accepts any non-empty hex string, and `slice(0, 64)` of a
short string is the string itself). Only an empty payload makes `BigInt`
throw. -/
theorem parseShareMintedEvent_shortData_not_dropped :
    (parseShareMintedEvent shortDataLog).isSome = true ∧
      shortDataLog.data.length = 4 ∧
      (parseShareMintedEvent shortDataLog).map (fun e => e.amountWei) = some 18 := by
  refine ⟨?_, ?_, ?_⟩ <;> decide

/-- C4 (amended): a raw log whose `data` payload is empty (no hex digits after
the `0x` prefix — `data` of length at most 2) is the case the decoder drops:
`BigInt('0x')` throws, the per-log `try/catch` skips the log, and the rest of
the batch is still processed — the batch result is exactly the concatenation of
the results on the logs before and after the bad one. A log with 1 to 31 bytes
of well-formed hex payload, by contrast, still yields an event (see the
counterexample). -/
theorem parseShareMintedEvent_emptyData (log : RawLog) (xs ys : List RawLog)
    (h : log.data.data.drop 2 = []) :
    parseShareMintedEvent log = none ∧
      processShareMintedLogs (xs ++ log :: ys) =
        processShareMintedLogs xs ++ processShareMintedLogs ys := by
  have hparse : parseShareMintedEvent log = none := by
    unfold parseShareMintedEvent bigIntOfHex
    rw [h]
    simp
  refine ⟨hparse, ?_⟩
  unfold processShareMintedLogs
  rw [List.filterMap_append, List.filterMap_cons, hparse]

/-- Witness for the empty-payload drop at a concrete batch: the bad log sits
between two good logs and only the good logs decode. -/
theorem parseShareMintedEvent_emptyData_witness :
    parseShareMintedEvent { shortDataLog with data := "0x" } = none ∧
      processShareMintedLogs
          [shortDataLog, { shortDataLog with data := "0x" }, shortDataLog] =
        processShareMintedLogs [shortDataLog] ++ processShareMintedLogs [shortDataLog] :=
  parseShareMintedEvent_emptyData { shortDataLog with data := "0x" }
    [shortDataLog] [shortDataLog] (by decide)

/-! ## Missing-API-key handling: fetchDelegationEvents and fetchRecentDelegations -/

/-- The outward network calls the two delegation-fetching operations can
issue. -/
inductive NetCall where
  | stakingValidators
  | etherscanBlockByTime
  | etherscanBlockNumber
  | etherscanGetLogs
deriving DecidableEq, Repr

/-- The `EthereumDelegationTracker` constructor's key resolution:
`process.env.ETHERSCAN_API_KEY || 'YourApiKeyToken'` (an unset variable, and
the empty string, are falsy). -/
def etherscanApiKeyOf : Option String → String
  | none => "YourApiKeyToken"
  | some "" => "YourApiKeyToken"
  | some k => k

/-- The guard both operations test:
`!this.etherscanApiKey || this.etherscanApiKey === 'YourApiKeyToken'`. -/
def apiKeyNotConfigured (key : String) : Bool :=
  key = "" || key = "YourApiKeyToken"

/-- The network-dependent environment of a run: the staking API's validator
list, and the outcome (result, network calls, console lines) of each
operation's configured-key path, whose network interactions the claims here do
not constrain. -/
structure EthNet where
  validators : List Nat
  delegationOutcome : List Nat × List NetCall × List String
  recentOutcome : List Nat × List NetCall × List String

/-- Embedding of `EthereumDelegationTracker.fetchDelegationEvents(validatorId, monthsBack)`,
as the triple (returned event list, network calls issued, console messages).
The missing-key guard is the first statement of the function, before any
network call; when it fires the function warns and returns `[]`. The
configured-key path (Etherscan block lookup, `getLogs`, event processing) is
supplied by the environment. -/
def fetchDelegationEvents (key : String) (net : EthNet) :
    List Nat × List NetCall × List String :=
  if apiKeyNotConfigured key then
    ([], [], ["Etherscan API key not configured. Cannot fetch Ethereum delegation data."])
  else
    net.delegationOutcome

/-- Embedding of `ValidatorTracker.fetchRecentDelegations(hours, limit)` (lines 126-279), as
the same triple. The function first awaits `fetchAllValidators()` — a network
call to the staking API — returning `[]` if the validator list is empty, and
only then tests the missing-key guard (lines 150-156), printing two error lines
and returning `[]`; the Etherscan calls and event processing of the
configured-key path are supplied by the environment. -/
def fetchRecentDelegations (key : String) (net : EthNet) :
    List Nat × List NetCall × List String :=
  if net.validators = [] then
    ([], [NetCall.stakingValidators], [])
  else if apiKeyNotConfigured key then
    ([], [NetCall.stakingValidators],
      ["ETHERSCAN_API_KEY not configured. This is required to fetch delegation data.",
       "Please set ETHERSCAN_API_KEY in your .env file or environment variables."])
  else
    (net.recentOutcome.1, NetCall.stakingValidators :: net.recentOutcome.2.1,
      net.recentOutcome.2.2)

/-- An environment with a non-empty validator list (the common case). -/
def sampleNet : EthNet :=
  { validators := [7]
    delegationOutcome := ([1], [NetCall.etherscanBlockByTime, NetCall.etherscanGetLogs], [])
    recentOutcome := ([1], [NetCall.etherscanBlockByTime, NetCall.etherscanGetLogs], []) }

/-- C9 counterexample to the claim as stated ("detect this before any network
call"): with the key left at the placeholder — exactly what the constructor
yields when `ETHERSCAN_API_KEY` is unset — `fetchRecentDelegations` has already
issued one network call, the validator-list fetch, before it detects the
missing key; it still prints the message and returns an empty result. -/
theorem fetchRecentDelegations_calls_before_detection :
    apiKeyNotConfigured (etherscanApiKeyOf none) = true ∧
      (fetchRecentDelegations (etherscanApiKeyOf none) sampleNet).1 = [] ∧
      (fetchRecentDelegations (etherscanApiKeyOf none) sampleNet).2.1 =
        [NetCall.stakingValidators] ∧
      ([NetCall.stakingValidators] : List NetCall) ≠ [] := by
  refine ⟨?_, ?_, ?_, ?_⟩ <;> decide

/-- C9 (amended): when the required API key is missing (unset or the
placeholder), `fetchDelegationEvents` detects it before any network call,
prints a user-facing message and returns an empty result list rather than
throwing; `fetchRecentDelegations` likewise prints a message and returns an
empty list, but detects the missing key only after its validator-list fetch
(one network call to the staking API) — before any Etherscan call — so
downstream aggregation can proceed in both cases. -/
theorem missingApiKey_empty_result (key : String) (net : EthNet)
    (h : apiKeyNotConfigured key = true) :
    fetchDelegationEvents key net =
        ([], [],
          ["Etherscan API key not configured. Cannot fetch Ethereum delegation data."]) ∧
      (fetchRecentDelegations key net).1 = [] ∧
      (fetchRecentDelegations key net).2.1 = [NetCall.stakingValidators] := by
  refine ⟨?_, ?_, ?_⟩
  · simp [fetchDelegationEvents, h]
  · unfold fetchRecentDelegations
    by_cases hv : net.validators = [] <;> simp [hv, h]
  · unfold fetchRecentDelegations
    by_cases hv : net.validators = [] <;> simp [hv, h]

/-- Witness for the missing-key theorem at the placeholder key and the sample
environment. -/
theorem missingApiKey_empty_result_witness :
    fetchDelegationEvents "YourApiKeyToken" sampleNet =
        ([], [],
          ["Etherscan API key not configured. Cannot fetch Ethereum delegation data."]) ∧
      (fetchRecentDelegations "YourApiKeyToken" sampleNet).1 = [] ∧
      (fetchRecentDelegations "YourApiKeyToken" sampleNet).2.1 =
        [NetCall.stakingValidators] :=
  missingApiKey_empty_result "YourApiKeyToken" sampleNet (by decide)
